import Mathlib

/-!
Verification of the core physics engine of a double-pendulum simulator
(`src/core/mod.rs`, `src/core/util.rs`), shallowly embedded over the reals.

The Rust code computes in `f64`; the embedding models its arithmetic over
`ℝ`, with Rust's truncated remainder `%` on floats modelled exactly
(`rustRem`), and — where a claim hinges on IEEE non-finite values — a small
NaN-propagating extension (`F64`) of the real model.
-/

open Real

open Classical

noncomputable section

/-- `GRAVITY` constant from `src/core/util.rs`. -/
def GRAVITY : ℝ := 100.0

/-- `TWO_PI` constant from `src/core/util.rs` (`2.0 * PI`). -/
def TWO_PI : ℝ := 2.0 * π

/-- Truncation toward zero, as used by Rust's `%` on `f64` (fmod). -/
def rtrunc (r : ℝ) : ℤ := if 0 ≤ r then ⌊r⌋ else ⌈r⌉

/-- Rust's `%` operator on `f64` values (C `fmod`): remainder of truncated
division, carrying the sign of the dividend. Modelled over `ℝ`. -/
def rustRem (x y : ℝ) : ℝ := x - y * (rtrunc (x / y) : ℝ)

/-- `normalize_angle` from `src/core/util.rs`:
```
let mut result = angle % TWO_PI;
if result > PI { result -= TWO_PI; }
if result < -PI { result += TWO_PI; }
result
```
-/
def normalize_angle (angle : ℝ) : ℝ :=
  let result := rustRem angle TWO_PI
  let result := if result > π then result - TWO_PI else result
  if result < -π then result + TWO_PI else result

/-- `Pendulum` from `src/core/mod.rs`: rod length and point mass. -/
structure Pendulum where
  length : ℝ
  mass : ℝ

/-- `Pendulum::new` — stores the fields as given, with no validation. -/
def Pendulum.new (length mass : ℝ) : Pendulum :=
  { length := length, mass := mass }

/-- `PendulumConfiguration` from `src/core/mod.rs`: one arm's dynamic state. -/
structure PendulumConfiguration where
  angle : ℝ
  angular_velocity : ℝ

/-- `PendulumConfiguration::new`. -/
def PendulumConfiguration.new (angle angular_velocity : ℝ) : PendulumConfiguration :=
  { angle := angle, angular_velocity := angular_velocity }

/-- `DoublePendulumConfiguration` from `src/core/mod.rs`: both arms' states. -/
structure DoublePendulumConfiguration where
  a : PendulumConfiguration
  b : PendulumConfiguration

/-- `DoublePendulumConfiguration::new`. -/
def DoublePendulumConfiguration.new (a b : PendulumConfiguration) :
    DoublePendulumConfiguration :=
  { a := a, b := b }

/-- `DoublePendulumConfiguration::distance` from `src/core/mod.rs`, value part:
per-arm absolute normalized angle differences divided by `π`, multiplied.
(The two `assert!` bound checks always pass over the reals; the exact
release-build behaviour of `assert!` on non-finite floats is modelled
separately by `distanceF` below.) -/
def DoublePendulumConfiguration.distance
    (self other : DoublePendulumConfiguration) : ℝ :=
  let angle_distance_a := |normalize_angle (self.a.angle - other.a.angle)|
  let angle_distance_b := |normalize_angle (self.b.angle - other.b.angle)|
  let norm_angle_distance_a := angle_distance_a / π
  let norm_angle_distance_b := angle_distance_b / π
  norm_angle_distance_a * norm_angle_distance_b

/-- `DoublePendulumConfiguration::angular_accelerations` from
`src/core/mod.rs`, translated operation for operation (same intermediate
`let` bindings as the source). -/
def DoublePendulumConfiguration.angular_accelerations
    (self : DoublePendulumConfiguration) (pendulum_a pendulum_b : Pendulum) :
    ℝ × ℝ :=
  let mass_a := pendulum_a.mass
  let mass_b := pendulum_b.mass
  let angle_a := self.a.angle
  let angle_b := self.b.angle
  let ang_vel_a := self.a.angular_velocity
  let ang_vel_b := self.b.angular_velocity
  let len_a := pendulum_a.length
  let len_b := pendulum_b.length
  let double_mass_a := 2.0 * mass_a
  let angle_diff := angle_a - angle_b
  let angle_diff_cos := Real.cos angle_diff
  let angle_diff_sin := Real.sin angle_diff
  let double_angle_diff_sin := 2.0 * angle_diff_sin
  let double_angle_diff := 2.0 * angle_diff
  let doubled_angles_diff_cos := Real.cos double_angle_diff
  let ang_vel_a_sq := ang_vel_a * ang_vel_a
  let ang_vel_b_sq := ang_vel_b * ang_vel_b
  let mass_sum := mass_a + mass_b
  let ang_acc_a := (-GRAVITY * (double_mass_a + mass_b) * Real.sin angle_a
      - mass_b * GRAVITY * Real.sin (angle_a - 2.0 * angle_b)
      - double_angle_diff_sin
          * mass_b
          * (ang_vel_b_sq * len_b + ang_vel_a_sq * len_a * angle_diff_cos))
      / (len_a * (double_mass_a + mass_b - mass_b * doubled_angles_diff_cos))
  let ang_acc_b := double_angle_diff_sin
      * (ang_vel_a_sq * len_a * mass_sum
          + GRAVITY * mass_sum * Real.cos angle_a
          + ang_vel_b_sq * len_b * mass_b * angle_diff_cos)
      / (len_b * (2.0 * mass_a + mass_b - mass_b * doubled_angles_diff_cos))
  (ang_acc_a, ang_acc_b)

/-- `DoublePendulumConfiguration::step` from `src/core/mod.rs`: the
accelerations are computed from the pre-step state, then both velocities
are updated in place, then both angles are updated in place (reading the
already-updated velocities), then both angles are normalized in place.
Each mutation of `self` is threaded explicitly. -/
def DoublePendulumConfiguration.step
    (self : DoublePendulumConfiguration) (pendulum_a pendulum_b : Pendulum)
    (secs : ℝ) : DoublePendulumConfiguration :=
  let acc := self.angular_accelerations pendulum_a pendulum_b
  let s1 : DoublePendulumConfiguration :=
    { self with a := { self.a with angular_velocity := self.a.angular_velocity + acc.1 * secs } }
  let s2 : DoublePendulumConfiguration :=
    { s1 with b := { s1.b with angular_velocity := s1.b.angular_velocity + acc.2 * secs } }
  let s3 : DoublePendulumConfiguration :=
    { s2 with a := { s2.a with angle := s2.a.angle + s2.a.angular_velocity * secs } }
  let s4 : DoublePendulumConfiguration :=
    { s3 with b := { s3.b with angle := s3.b.angle + s3.b.angular_velocity * secs } }
  let s5 : DoublePendulumConfiguration :=
    { s4 with a := { s4.a with angle := normalize_angle s4.a.angle } }
  { s5 with b := { s5.b with angle := normalize_angle s5.b.angle } }

/-- The integration step as §4.2 of the spec words it: accelerations from
the state before the step; velocities updated first from those; angles
updated with the new velocities; both angles then normalized. Written
independently of `DoublePendulumConfiguration.step` to compare against it. -/
def stepSpecDescription
    (self : DoublePendulumConfiguration) (pendulum_a pendulum_b : Pendulum)
    (dt : ℝ) : DoublePendulumConfiguration :=
  let acc := self.angular_accelerations pendulum_a pendulum_b
  let omega_a := self.a.angular_velocity + acc.1 * dt
  let omega_b := self.b.angular_velocity + acc.2 * dt
  let theta_a := normalize_angle (self.a.angle + omega_a * dt)
  let theta_b := normalize_angle (self.b.angle + omega_b * dt)
  { a := { angle := theta_a, angular_velocity := omega_a },
    b := { angle := theta_b, angular_velocity := omega_b } }

/-- `DoublePendulumCollection` from `src/core/mod.rs`. -/
structure DoublePendulumCollection where
  pendulum_a : Pendulum
  pendulum_b : Pendulum
  pendulum_configurations : List DoublePendulumConfiguration

/-- `DoublePendulumCollection::new` — stores the fields as given, with no
validation of the parameters. -/
def DoublePendulumCollection.new (pendulum_a pendulum_b : Pendulum)
    (pendulum_configurations : List DoublePendulumConfiguration) :
    DoublePendulumCollection :=
  { pendulum_a := pendulum_a, pendulum_b := pendulum_b,
    pendulum_configurations := pendulum_configurations }

/-- `DoublePendulumCollection::step_all`: every configuration is stepped
once, independently, with the shared parameters. (The source uses a
parallel iterator; each trajectory's update depends only on its own state,
so the parallel loop is modelled as a map.) -/
def DoublePendulumCollection.step_all (self : DoublePendulumCollection)
    (step_time : ℝ) : DoublePendulumCollection :=
  { self with pendulum_configurations :=
      self.pendulum_configurations.map (fun p =>
        p.step self.pendulum_a self.pendulum_b step_time) }

/-- The inner `(0..n).for_each(|_| pendulum.step(..))` loop of
`DoublePendulumCollection::step_all_n_times`: `n` sequential steps applied
to one configuration, first iteration first. -/
def stepLoop (pendulum_a pendulum_b : Pendulum) (step_time : ℝ) :
    ℕ → DoublePendulumConfiguration → DoublePendulumConfiguration
  | 0, p => p
  | Nat.succ n, p => stepLoop pendulum_a pendulum_b step_time n
      (p.step pendulum_a pendulum_b step_time)

/-- `DoublePendulumCollection::step_all_n_times`: every configuration runs
the `n`-iteration step loop with the shared parameters. -/
def DoublePendulumCollection.step_all_n_times (self : DoublePendulumCollection)
    (step_time : ℝ) (n : ℕ) : DoublePendulumCollection :=
  { self with pendulum_configurations :=
      self.pendulum_configurations.map (fun p =>
        stepLoop self.pendulum_a self.pendulum_b step_time n p) }

/-- An `f64` value in the NaN-propagation model: either NaN or a finite
real. Rounding and infinities are not modelled; this extension exists to
capture how the `assert!` in `distance` behaves on non-finite inputs. -/
inductive F64 where
  | nan : F64
  | fin : ℝ → F64

/-- IEEE addition restricted to the NaN-propagation model. -/
def F64.add : F64 → F64 → F64
  | fin x, fin y => fin (x + y)
  | _, _ => nan

/-- IEEE subtraction restricted to the NaN-propagation model. -/
def F64.sub : F64 → F64 → F64
  | fin x, fin y => fin (x - y)
  | _, _ => nan

/-- IEEE multiplication restricted to the NaN-propagation model. -/
def F64.mul : F64 → F64 → F64
  | fin x, fin y => fin (x * y)
  | _, _ => nan

/-- IEEE division restricted to the NaN-propagation model (a zero divisor
never occurs in the embedded code: the only divisor used is `π`). -/
def F64.div : F64 → F64 → F64
  | fin x, fin y => if y = 0 then nan else fin (x / y)
  | _, _ => nan

/-- Rust `%` (fmod) on `f64`: NaN operands give NaN, otherwise the
truncated remainder (a zero divisor never occurs: the only modulus used
is `2π`). -/
def F64.rem : F64 → F64 → F64
  | fin x, fin y => if y = 0 then nan else fin (rustRem x y)
  | _, _ => nan

/-- `f64::abs` in the NaN-propagation model. -/
def F64.abs : F64 → F64
  | fin x => fin |x|
  | nan => nan

/-- IEEE `<`: false whenever an operand is NaN. -/
def F64.lt : F64 → F64 → Prop
  | fin x, fin y => x < y
  | _, _ => False

/-- IEEE `<=`: false whenever an operand is NaN. -/
def F64.le : F64 → F64 → Prop
  | fin x, fin y => x ≤ y
  | _, _ => False

/-- `normalize_angle` over the NaN-propagation model, mirroring the source
(`result > PI` and `result < -PI` are IEEE comparisons, false on NaN). -/
def normalize_angleF (angle : F64) : F64 :=
  let result := angle.rem (F64.fin TWO_PI)
  let result := if (F64.fin π).lt result then result.sub (F64.fin TWO_PI) else result
  if result.lt (F64.fin (-π)) then result.add (F64.fin TWO_PI) else result

/-- One arm's state with `f64` fields in the NaN-propagation model. -/
structure PendulumConfigurationF where
  angle : F64
  angular_velocity : F64

/-- Both arms' states with `f64` fields in the NaN-propagation model. -/
structure DoublePendulumConfigurationF where
  a : PendulumConfigurationF
  b : PendulumConfigurationF

/-- `DoublePendulumConfiguration::distance` over the NaN-propagation model,
with the two `assert!` checks made explicit. Rust's `assert!` macro is
compiled into release builds as well as debug builds, so a failed bound
check aborts the computation unconditionally; the abort is modelled as
`Except.error`. `(0.0..=1.0).contains(&v)` is `0.0 <= v && v <= 1.0` with
IEEE comparisons, hence false when `v` is NaN. -/
def distanceF (self other : DoublePendulumConfigurationF) : Except Unit F64 :=
  let angle_distance_a := (normalize_angleF (self.a.angle.sub other.a.angle)).abs
  let angle_distance_b := (normalize_angleF (self.b.angle.sub other.b.angle)).abs
  let norm_angle_distance_a := angle_distance_a.div (F64.fin π)
  let norm_angle_distance_b := angle_distance_b.div (F64.fin π)
  if (F64.fin 0).le norm_angle_distance_a ∧ norm_angle_distance_a.le (F64.fin 1) then
    if (F64.fin 0).le norm_angle_distance_b ∧ norm_angle_distance_b.le (F64.fin 1) then
      Except.ok (norm_angle_distance_a.mul norm_angle_distance_b)
    else
      Except.error ()
  else
    Except.error ()

end

/-- Truncation toward zero is odd. -/
theorem rtrunc_neg (r : ℝ) : rtrunc (-r) = -rtrunc r := by
  unfold rtrunc
  rcases lt_trichotomy r 0 with h | h | h
  · rw [if_neg (not_le.mpr h), if_pos (by linarith), Int.floor_neg]
  · simp [h]
  · rw [if_pos h.le, if_neg (by simp [not_le, h]), Int.ceil_neg]

/-- For a positive modulus, the truncated remainder lies strictly between
`-y` and `y`. -/
theorem rustRem_bounds {y : ℝ} (hy : 0 < y) (x : ℝ) :
    -y < rustRem x y ∧ rustRem x y < y := by
  unfold rustRem rtrunc
  set t := x / y with ht
  have hx : x = y * t := by field_simp [ht]
  by_cases h0 : 0 ≤ t
  · rw [if_pos h0]
    have h1 : (⌊t⌋ : ℝ) ≤ t := Int.floor_le t
    have h2 : t - 1 < ⌊t⌋ := Int.sub_one_lt_floor t
    constructor <;> nlinarith
  · rw [if_neg h0]
    have h1 : t ≤ (⌈t⌉ : ℝ) := Int.le_ceil t
    have h2 : (⌈t⌉ : ℝ) < t + 1 := Int.ceil_lt_add_one t
    constructor <;> nlinarith

/-- The truncated remainder is odd in its dividend. -/
theorem rustRem_neg (x y : ℝ) : rustRem (-x) y = -rustRem x y := by
  unfold rustRem
  rw [neg_div, rtrunc_neg]
  push_cast
  ring

/-- A real already in `[-π, π]` is its own truncated remainder mod `2π`. -/
theorem rustRem_of_abs_le_pi {x : ℝ} (h1 : -π ≤ x) (h2 : x ≤ π) :
    rustRem x TWO_PI = x := by
  unfold rustRem TWO_PI
  have hpi := Real.pi_pos
  have htp : (0:ℝ) < 2.0 * π := by norm_num [hpi]
  have hub : x / (2.0 * π) < 1 := by
    rw [div_lt_one htp]; linarith
  have hlb : (-1 : ℝ) < x / (2.0 * π) := by
    rw [neg_lt, ← neg_div]
    rw [div_lt_one htp]; linarith
  have : rtrunc (x / (2.0 * π)) = 0 := by
    unfold rtrunc
    by_cases h0 : 0 ≤ x / (2.0 * π)
    · rw [if_pos h0, Int.floor_eq_zero_iff]
      exact ⟨h0, hub⟩
    · rw [if_neg h0, Int.ceil_eq_zero_iff]
      exact ⟨hlb, le_of_not_le h0⟩
  rw [this]
  push_cast
  ring

/-- The normalizer always lands in the closed interval `[-π, π]`. -/
theorem normalize_angle_mem (x : ℝ) :
    -π ≤ normalize_angle x ∧ normalize_angle x ≤ π := by
  have hpi := Real.pi_pos
  have htp : (0:ℝ) < 2.0 * π := by norm_num [hpi]
  obtain ⟨hlo, hhi⟩ := rustRem_bounds htp x
  simp only [normalize_angle]
  set r := rustRem x TWO_PI with hr
  have hhi' : r < 2.0 * π := by rw [hr]; unfold TWO_PI; exact hhi
  have hlo' : -(2.0 * π) < r := by rw [hr]; unfold TWO_PI; exact hlo
  by_cases h1 : r > π
  · rw [if_pos h1]
    have : ¬ (r - TWO_PI < -π) := by unfold TWO_PI; push_neg; linarith
    rw [if_neg this]
    unfold TWO_PI
    constructor <;> linarith
  · rw [if_neg h1]
    push_neg at h1
    by_cases h2 : r < -π
    · rw [if_pos h2]
      unfold TWO_PI
      constructor <;> linarith
    · rw [if_neg h2]
      push_neg at h2
      exact ⟨h2, h1⟩

/-- The normalizer fixes any value already in `[-π, π]`. -/
theorem normalize_angle_of_mem {x : ℝ} (h1 : -π ≤ x) (h2 : x ≤ π) :
    normalize_angle x = x := by
  simp only [normalize_angle]
  rw [rustRem_of_abs_le_pi h1 h2]
  rw [if_neg (not_lt.mpr h2), if_neg (not_lt.mpr h1)]

/-- The normalizer is idempotent. -/
theorem normalize_angle_idem (x : ℝ) :
    normalize_angle (normalize_angle x) = normalize_angle x := by
  obtain ⟨h1, h2⟩ := normalize_angle_mem x
  exact normalize_angle_of_mem h1 h2

/-- The normalizer is an odd function. -/
theorem normalize_angle_neg (x : ℝ) :
    normalize_angle (-x) = -normalize_angle x := by
  have hpi := Real.pi_pos
  simp only [normalize_angle]
  rw [rustRem_neg]
  set r := rustRem x TWO_PI with hr
  by_cases h1 : r > π
  · rw [if_pos h1, if_neg (show ¬ (-r > π) by push_neg; linarith)]
    rw [if_neg (show ¬ (r - TWO_PI < -π) by unfold TWO_PI; push_neg; linarith)]
    rw [if_pos (show -r < -π by linarith)]
    ring
  · push_neg at h1
    rw [if_neg (not_lt.mpr h1)]
    by_cases h2 : r < -π
    · rw [if_pos h2, if_pos (show -r > π by linarith)]
      rw [if_neg (show ¬ (-r - TWO_PI < -π) by unfold TWO_PI; push_neg; linarith)]
      ring
    · push_neg at h2
      rw [if_neg (show ¬ (-r > π) by push_neg; linarith)]
      rw [if_neg (not_lt.mpr (show -π ≤ -r by linarith))]
      rw [if_neg (not_lt.mpr h2)]

/-- The normalizer maps `0` to `0`. -/
theorem normalize_angle_zero : normalize_angle 0 = 0 := by
  have hpi := Real.pi_pos
  exact normalize_angle_of_mem (by linarith) (by linarith)

/-- Each per-arm normalized angular distance lies in `[0, 1]`. -/
theorem norm_angle_div_pi_bounds (d : ℝ) :
    0 ≤ |normalize_angle d| / π ∧ |normalize_angle d| / π ≤ 1 := by
  have hpi := Real.pi_pos
  obtain ⟨h1, h2⟩ := normalize_angle_mem d
  constructor
  · exact div_nonneg (abs_nonneg _) hpi.le
  · rw [div_le_one hpi]
    exact abs_le.mpr ⟨h1, h2⟩

/-- On finite values, the NaN-propagation model of the normalizer agrees
with the real model. -/
theorem normalize_angleF_fin (x : ℝ) :
    normalize_angleF (F64.fin x) = F64.fin (normalize_angle x) := by
  have htp : TWO_PI ≠ 0 := by
    unfold TWO_PI
    have := Real.pi_pos
    positivity
  simp only [normalize_angleF, normalize_angle, F64.rem, if_neg htp]
  by_cases h1 : π < rustRem x TWO_PI
  · rw [if_pos (show (F64.fin π).lt (F64.fin (rustRem x TWO_PI)) from h1),
      if_pos (show rustRem x TWO_PI > π from h1)]
    simp only [F64.sub]
    by_cases h2 : rustRem x TWO_PI - TWO_PI < -π
    · rw [if_pos (show (F64.fin (rustRem x TWO_PI - TWO_PI)).lt (F64.fin (-π)) from h2),
        if_pos h2]
      simp only [F64.add]
    · rw [if_neg (show ¬ (F64.fin (rustRem x TWO_PI - TWO_PI)).lt (F64.fin (-π)) from h2),
        if_neg h2]
  · rw [if_neg (show ¬ (F64.fin π).lt (F64.fin (rustRem x TWO_PI)) from h1),
      if_neg (show ¬ rustRem x TWO_PI > π from h1)]
    by_cases h2 : rustRem x TWO_PI < -π
    · rw [if_pos (show (F64.fin (rustRem x TWO_PI)).lt (F64.fin (-π)) from h2), if_pos h2]
      simp only [F64.add]
    · rw [if_neg (show ¬ (F64.fin (rustRem x TWO_PI)).lt (F64.fin (-π)) from h2), if_neg h2]

/-- The per-configuration loop of `step_all_n_times` is `n`-fold iteration
of the single step. -/
theorem stepLoop_eq_iterate (pa pb : Pendulum) (dt : ℝ) (n : ℕ)
    (p : DoublePendulumConfiguration) :
    stepLoop pa pb dt n p = (fun q => q.step pa pb dt)^[n] p := by
  induction n generalizing p with
  | zero => rfl
  | succ n ih =>
    rw [stepLoop, ih, Function.iterate_succ_apply]

/-- C1 counterexample: at the concrete non-positive inputs length `0` and
mass `-1`, both `Pendulum::new` and `DoublePendulumCollection::new` return
a normally constructed value — no configuration error is signalled. -/
theorem construction_accepts_nonpositive :
    Pendulum.new 0 1 = { length := 0, mass := 1 } ∧
    DoublePendulumCollection.new (Pendulum.new 0 1) (Pendulum.new 1 (-1)) []
      = { pendulum_a := { length := 0, mass := 1 },
          pendulum_b := { length := 1, mass := -1 },
          pendulum_configurations := [] } :=
  ⟨rfl, rfl⟩

/-- C1 (amended): construction performs no validation. For every length
and mass, including non-positive ones, `Pendulum::new` returns a normally
constructed value holding exactly the given fields, and
`DoublePendulumCollection::new` returns a normally constructed collection
holding exactly the given parameters and configurations; no configuration
error is ever signalled. -/
theorem construction_unvalidated (length mass : ℝ) (pa pb : Pendulum)
    (cfgs : List DoublePendulumConfiguration) :
    ((Pendulum.new length mass).length = length ∧
      (Pendulum.new length mass).mass = mass) ∧
    ((DoublePendulumCollection.new pa pb cfgs).pendulum_a = pa ∧
      (DoublePendulumCollection.new pa pb cfgs).pendulum_b = pb ∧
      (DoublePendulumCollection.new pa pb cfgs).pendulum_configurations = cfgs) :=
  ⟨⟨rfl, rfl⟩, rfl, rfl, rfl⟩

/-- C2 counterexample: the bound checks in `distance` are `assert!`, which
is active in release builds; at the concrete input where the first arm's
angle of `self` is NaN (all other components `0`), the release-mode
divergence computation aborts. -/
theorem distance_nan_aborts :
    distanceF ⟨⟨F64.nan, F64.fin 0⟩, ⟨F64.fin 0, F64.fin 0⟩⟩
        ⟨⟨F64.fin 0, F64.fin 0⟩, ⟨F64.fin 0, F64.fin 0⟩⟩ = Except.error () := by
  simp [distanceF, normalize_angleF, F64.sub, F64.rem, F64.abs, F64.div,
    F64.le, F64.lt]

/-- C2 (amended): each per-arm normalized value lies in `[0, 1]` for finite
inputs, and on such inputs the computation completes without aborting,
returning the product; the bound check itself is an unconditional `assert!`
(also active in release builds), not a debug-only assertion. -/
theorem distance_fin_in_bounds_no_abort (a1 v1 b1 w1 a2 v2 b2 w2 : ℝ) :
    distanceF ⟨⟨F64.fin a1, F64.fin v1⟩, ⟨F64.fin b1, F64.fin w1⟩⟩
        ⟨⟨F64.fin a2, F64.fin v2⟩, ⟨F64.fin b2, F64.fin w2⟩⟩
      = Except.ok (F64.fin
          (DoublePendulumConfiguration.distance ⟨⟨a1, v1⟩, ⟨b1, w1⟩⟩
            ⟨⟨a2, v2⟩, ⟨b2, w2⟩⟩)) ∧
    (0 ≤ |normalize_angle (a1 - a2)| / π ∧ |normalize_angle (a1 - a2)| / π ≤ 1) ∧
    (0 ≤ |normalize_angle (b1 - b2)| / π ∧ |normalize_angle (b1 - b2)| / π ≤ 1) := by
  have hpi := Real.pi_pos
  obtain ⟨ha0, ha1⟩ := norm_angle_div_pi_bounds (a1 - a2)
  obtain ⟨hb0, hb1⟩ := norm_angle_div_pi_bounds (b1 - b2)
  refine ⟨?_, ⟨ha0, ha1⟩, hb0, hb1⟩
  simp only [distanceF, F64.sub, normalize_angleF_fin, F64.abs, F64.div,
    if_neg hpi.ne', F64.le, F64.mul, DoublePendulumConfiguration.distance]
  rw [if_pos ⟨ha0, ha1⟩, if_pos ⟨hb0, hb1⟩]

/-- C3 counterexample: at the concrete input `-π` the normalizer returns
`-π` itself, which is not strictly greater than `-π`; so the image is not
contained in the half-open range `(-π, π]`. -/
theorem normalize_angle_at_neg_pi :
    normalize_angle (-π) = -π ∧ ¬ (-π < normalize_angle (-π)) := by
  have hpi := Real.pi_pos
  have h : normalize_angle (-π) = -π :=
    normalize_angle_of_mem le_rfl (by linarith)
  exact ⟨h, by rw [h]; exact lt_irrefl _⟩

/-- C3 (amended): the angle normalizer maps every real radian input into
the closed range `[-π, π]` (the lower endpoint `-π` is attained, e.g. at
`-π` itself): for every real `x`, `-π ≤ normalize(x)` and
`normalize(x) ≤ π`. -/
theorem normalize_angle_range (x : ℝ) :
    -π ≤ normalize_angle x ∧ normalize_angle x ≤ π :=
  normalize_angle_mem x

/-- C4: for every collection, time increment and `n ≥ 0`, the batched
operation `step_all_n_times(dt, n)` leaves every trajectory in exactly the
state produced by applying the single-step operation `step(dt)` to it `n`
times in sequence. -/
theorem step_all_n_times_eq_sequential (coll : DoublePendulumCollection)
    (dt : ℝ) (n : ℕ) (i : ℕ) :
    (coll.step_all_n_times dt n).pendulum_configurations[i]?
      = (coll.pendulum_configurations[i]?).map
          (fun p => (fun q => q.step coll.pendulum_a coll.pendulum_b dt)^[n] p) := by
  simp [DoublePendulumCollection.step_all_n_times, stepLoop_eq_iterate]

/-- C5: the integration step is semi-implicit Euler in exactly the order
the spec describes: accelerations from the pre-step state, both velocities
updated first from them, both angles then updated using the new
velocities, and finally both angles normalized. -/
theorem step_is_semi_implicit_euler (self : DoublePendulumConfiguration)
    (pa pb : Pendulum) (dt : ℝ) :
    self.step pa pb dt = stepSpecDescription self pa pb dt := rfl

/-- C6: for positive masses and lengths, the state hanging straight down
(both angles `0`, both angular velocities `0`) has angular accelerations
exactly `(0, 0)`. -/
theorem hanging_equilibrium (pa pb : Pendulum) (hla : 0 < pa.length)
    (hma : 0 < pa.mass) (hlb : 0 < pb.length) (hmb : 0 < pb.mass) :
    DoublePendulumConfiguration.angular_accelerations ⟨⟨0, 0⟩, ⟨0, 0⟩⟩ pa pb
      = (0, 0) := by
  norm_num [DoublePendulumConfiguration.angular_accelerations]

/-- Witness for C6 at the concrete parameters `length = 1`, `mass = 1` for
both arms. -/
theorem hanging_equilibrium_witness :
    (0 < (Pendulum.new 1 1).length ∧ 0 < (Pendulum.new 1 1).mass) ∧
    DoublePendulumConfiguration.angular_accelerations ⟨⟨0, 0⟩, ⟨0, 0⟩⟩
      (Pendulum.new 1 1) (Pendulum.new 1 1) = (0, 0) :=
  ⟨⟨by norm_num [Pendulum.new], by norm_num [Pendulum.new]⟩,
    hanging_equilibrium (Pendulum.new 1 1) (Pendulum.new 1 1)
      (by norm_num [Pendulum.new]) (by norm_num [Pendulum.new])
      (by norm_num [Pendulum.new]) (by norm_num [Pendulum.new])⟩

/-- C7: the combined divergence of any two trajectories lies in `[0, 1]`,
and the divergence of a trajectory against an identical copy of itself is
exactly `0`. -/
theorem distance_bounds_and_self_zero (c1 c2 c : DoublePendulumConfiguration) :
    (0 ≤ c1.distance c2 ∧ c1.distance c2 ≤ 1) ∧ c.distance c = 0 := by
  obtain ⟨ha0, ha1⟩ := norm_angle_div_pi_bounds (c1.a.angle - c2.a.angle)
  obtain ⟨hb0, hb1⟩ := norm_angle_div_pi_bounds (c1.b.angle - c2.b.angle)
  refine ⟨⟨?_, ?_⟩, ?_⟩
  · exact mul_nonneg ha0 hb0
  · exact mul_le_one₀ ha1 hb0 hb1
  · simp [DoublePendulumConfiguration.distance, normalize_angle_zero]

/-- C8: the angle normalizer is exactly idempotent:
`normalize(normalize(x)) = normalize(x)` for every real `x`. -/
theorem normalize_angle_idempotent (x : ℝ) :
    normalize_angle (normalize_angle x) = normalize_angle x :=
  normalize_angle_idem x

/-- C9: after every integration step both arm angles are in canonical
normalized form: the stepped state satisfies `θ = normalize(θ)` for both
arms. -/
theorem step_angles_normalized (self : DoublePendulumConfiguration)
    (pa pb : Pendulum) (dt : ℝ) :
    (self.step pa pb dt).a.angle
        = normalize_angle ((self.step pa pb dt).a.angle) ∧
    (self.step pa pb dt).b.angle
        = normalize_angle ((self.step pa pb dt).b.angle) := by
  constructor <;>
    · simp only [DoublePendulumConfiguration.step]
      exact (normalize_angle_idem _).symm

/-- C10: the divergence metric is exactly symmetric:
`distance(t1, t2) = distance(t2, t1)` for all trajectories, because the
normalizer is odd and the absolute value kills the sign. -/
theorem distance_symmetric (c1 c2 : DoublePendulumConfiguration) :
    c1.distance c2 = c2.distance c1 := by
  simp only [DoublePendulumConfiguration.distance]
  rw [show c2.a.angle - c1.a.angle = -(c1.a.angle - c2.a.angle) by ring,
    show c2.b.angle - c1.b.angle = -(c1.b.angle - c2.b.angle) by ring,
    normalize_angle_neg, normalize_angle_neg, abs_neg, abs_neg]

/-- Regression check mirroring the source's unit test:
`normalize_angle(TWO_PI) = 0` (exactly, in the real model). -/
theorem normalize_angle_two_pi : normalize_angle TWO_PI = 0 := by
  have h : rustRem TWO_PI TWO_PI = 0 := by
    have hpi := Real.pi_pos
    unfold rustRem rtrunc TWO_PI
    rw [div_self (by positivity)]
    norm_num
  have hpi := Real.pi_pos
  simp only [normalize_angle, h]
  rw [if_neg (show ¬ ((0:ℝ) > π) by push_neg; linarith)]
  rw [if_neg (show ¬ ((0:ℝ) < -π) by push_neg; linarith)]

/-- Regression check mirroring the source's unit test:
`normalize_angle(PI + TWO_PI) = PI` (exactly, in the real model). -/
theorem normalize_angle_pi_add_two_pi : normalize_angle (π + TWO_PI) = π := by
  have hpi := Real.pi_pos
  have h : rustRem (π + TWO_PI) TWO_PI = π := by
    unfold rustRem rtrunc TWO_PI
    have h1 : (π + 2.0 * π) / (2.0 * π) = 1.5 := by
      field_simp
      ring
    rw [h1]
    rw [if_pos (by norm_num)]
    rw [show ⌊(1.5:ℝ)⌋ = 1 by norm_num [Int.floor_eq_iff]]
    push_cast
    ring
  simp only [normalize_angle, h]
  rw [if_neg (show ¬ (π > π) by push_neg; exact le_refl π)]
  rw [if_neg (show ¬ (π < -π) by push_neg; linarith)]

/-- Regression check mirroring the source's unit test:
`normalize_angle(1.5 * PI) = -0.5 * PI` (exactly, in the real model). -/
theorem normalize_angle_three_half_pi : normalize_angle (1.5 * π) = -(0.5 * π) := by
  have hpi := Real.pi_pos
  have h : rustRem (1.5 * π) TWO_PI = 1.5 * π := by
    unfold rustRem rtrunc TWO_PI
    have h1 : (1.5 * π) / (2.0 * π) = 0.75 := by
      field_simp
      ring
    rw [h1]
    rw [if_pos (by norm_num), show ⌊(0.75:ℝ)⌋ = 0 by
      rw [Int.floor_eq_iff] <;> norm_num]
    push_cast
    ring
  simp only [normalize_angle, h]
  rw [if_pos (show (1.5:ℝ) * π > π by linarith)]
  rw [if_neg (show ¬ ((1.5:ℝ) * π - TWO_PI < -π) by unfold TWO_PI; push_neg; linarith)]
  unfold TWO_PI
  ring
